import Mathlib

/-!
# Verification of the pydanticInput schema-to-editor dispatch engine

Shallow embedding of `pydanticInput` (dispatch.py, widgets.py, main.py and the
handlers package).  Python type annotations become the inductive `PyType`;
`type_dispatch` becomes a Lean function into `Except String Handler`, mirroring
the `if`/`elif` chain of `src/pydanticInput/dispatch.py` (the module exported by
`__init__.py`; `handlers.py` is dead legacy code).  Each handler returns a pair
(widget, getter); widgets become explicit state records, getters become
functions of the widget state at call time.  Where a Python expression
evaluates a widget accessor at handler-construction time (the
`widget.dateTime().toPython` pattern), the embedded extractor is a constant
closed over the construction-time snapshot, exactly as Python method binding
behaves.
-/

namespace PydanticInput

/-! ## Decimal text encoding

`ListEditWidget.add_value` stores `repr(item)` and `get_values` recovers the
value with `ast.literal_eval`.  For `int` items, `repr` is the decimal string
(with a leading minus sign for negatives) and `ast.literal_eval` parses it
back.  The two functions below embed exactly that pair for integers. -/

/-- Little-endian base-10 digits of `n`, with explicit structural fuel (the
first argument); `toDigitsF n n` is the digit list of `n` (empty for `0`). -/
def toDigitsF : Nat → Nat → List Nat
  | 0, _ => []
  | fuel + 1, n => if n = 0 then [] else n % 10 :: toDigitsF fuel (n / 10)

/-- The character for one decimal digit. -/
def digitChar (d : Nat) : Char := Char.ofNat (48 + d)

/-- Python `repr` of a natural number: its decimal string. -/
def reprNat (n : Nat) : String :=
  if n = 0 then "0" else String.mk ((toDigitsF n n).reverse.map digitChar)

/-- Python `repr` of an `int`: decimal string, minus sign for negatives. -/
def reprInt (n : Int) : String :=
  if n < 0 then "-" ++ reprNat n.natAbs else reprNat n.natAbs

/-- Is `c` one of the characters `0`..`9`? -/
def isDigitCh (c : Char) : Bool := 48 ≤ c.toNat && c.toNat ≤ 57

/-- The digit value of a digit character. -/
def digitVal (c : Char) : Nat := c.toNat - 48

/-- Parse a non-empty all-digit character list as a natural number. -/
def parseNatChars (cs : List Char) : Option Nat :=
  if cs ≠ [] ∧ cs.all isDigitCh then
    some (cs.foldl (fun a c => a * 10 + digitVal c) 0)
  else
    none

/-- Model of `ast.literal_eval` restricted to `int` literals: an optional leading
minus sign followed by decimal digits; `none` models the raised exception on
any other string. -/
def evalIntChars : List Char → Option Int
  | [] => none
  | c :: rest =>
    if c = '-' then (parseNatChars rest).map (fun n => -(n : Int))
    else (parseNatChars (c :: rest)).map (fun n => (n : Int))

/-- The whole-string parse. -/
def literal_eval_int (s : String) : Option Int :=
  evalIntChars s.data

/-! ## Literal values and enum members -/

/-- A value allowed by a `typing.Literal[...]` annotation (Python restricts
literal parameters to primitives); carries the typed value, so that the
extractor returning `.int 1` is distinguishable from it returning the string
rendering `"1"`. -/
inductive PyLit where
  | int (n : Int) : PyLit
  | str (s : String) : PyLit
  | bool (b : Bool) : PyLit
  deriving Repr, DecidableEq

/-- Python `str(v)` on a literal value: the decimal form of an int, a string
itself, `True`/`False` for booleans. -/
def PyLit.pyStr : PyLit → String
  | .int n => reprInt n
  | .str s => s
  | .bool b => if b then "True" else "False"

/-- One member of an `Enum` subclass: its declared name and its value.
`handle_enums` feeds the values to `QComboBox.addItems`, which accepts only
strings, so the value is a string (a non-string-valued enum would raise a
`TypeError` inside Qt at construction). -/
structure EnumMember where
  name : String
  value : String
  deriving Repr, DecidableEq

/-- A Python type annotation as seen by `type_dispatch`.  Constructors mirror
the cases the dispatcher inspects: the plain classes of the primitive branch,
`Enum` and `BaseModel` subclasses, `NoneType`, the parametrized containers
(`list[T]`, `dict[K, V]`, `Literal[...]`, unions), plus the shapes that have no
handler: the bare `set`, `tuple` and `list` classes (unparameterized, so
`typing.get_origin` returns `None` and they are plain `type` instances), and
arbitrary other classes. -/
inductive PyType where
  | intTy : PyType
  | floatTy : PyType
  | decimalTy : PyType
  | strTy : PyType
  | boolTy : PyType
  | datetimeTy : PyType
  | dateTy : PyType
  | timeTy : PyType
  | noneTy : PyType
  | enumTy (members : List EnumMember) : PyType
  | modelTy (fieldTypes : List (String × PyType)) : PyType
  | setClass : PyType
  | tupleClass : PyType
  | listClass : PyType
  | otherClass (name : String) : PyType
  | listOf (item : PyType) : PyType
  | dictOf (key value : PyType) : PyType
  | literalOf (values : List PyLit) : PyType
  | unionOf (branches : List PyType) : PyType
  deriving Repr

/-- The handler functions `type_dispatch` can return, one constructor per
`return` statement in `src/pydanticInput/dispatch.py`. -/
inductive Handler where
  | handle_int | handle_numeric | handle_str | handle_bool
  | handle_datetime | handle_date | handle_time
  | handle_enums | handle_BaseModel | handle_None
  | handle_list | handle_dict | handle_literal | handle_union
  deriving Repr, DecidableEq

/-- The string rendering of a type annotation, standing in for the Python
`str(field_type)` interpolated into the error message (quoting of class names
elided). -/
def describe : PyType → String
  | .intTy => "<class int>"
  | .floatTy => "<class float>"
  | .decimalTy => "<class decimal.Decimal>"
  | .strTy => "<class str>"
  | .boolTy => "<class bool>"
  | .datetimeTy => "<class datetime.datetime>"
  | .dateTy => "<class datetime.date>"
  | .timeTy => "<class datetime.time>"
  | .noneTy => "<class NoneType>"
  | .enumTy _ => "<enum>"
  | .modelTy _ => "<class BaseModel subclass>"
  | .setClass => "<class set>"
  | .tupleClass => "<class tuple>"
  | .listClass => "<class list>"
  | .otherClass n => "<class " ++ n ++ ">"
  | .listOf _ => "list[...]"
  | .dictOf _ _ => "dict[...]"
  | .literalOf _ => "typing.Literal[...]"
  | .unionOf _ => "typing.Union[...]"

/-- The `NotImplementedError` message raised at the bottom of `type_dispatch`:
`f"Handler for type:: \x60{field_type}\x60 is not yet implemented. ..."`. -/
def unsupportedMsg (t : PyType) : String :=
  "Handler for type:: `" ++ describe t ++ "` is not yet implemented. " ++
    "Consider implementing yourself or better yet raise a PR."

/-- Function `type_dispatch` from `src/pydanticInput/dispatch.py`.  The branch
structure mirrors the source: when `typing.get_origin` gives `None` and the
annotation is a class, the primitive / Enum / BaseModel / NoneType chain is
tried; otherwise the origin is compared against `list`, `dict`,
`typing.Literal` and the union forms; anything that falls through every branch
raises `NotImplementedError` (here: `Except.error`) carrying the offending
type's description. -/
def type_dispatch : PyType → Except String Handler
  | .intTy => .ok .handle_int
  | .floatTy => .ok .handle_numeric
  | .decimalTy => .ok .handle_numeric
  | .strTy => .ok .handle_str
  | .boolTy => .ok .handle_bool
  | .datetimeTy => .ok .handle_datetime
  | .dateTy => .ok .handle_date
  | .timeTy => .ok .handle_time
  | .enumTy _ => .ok .handle_enums
  | .modelTy _ => .ok .handle_BaseModel
  | .noneTy => .ok .handle_None
  | .listOf _ => .ok .handle_list
  | .dictOf _ _ => .ok .handle_dict
  | .literalOf _ => .ok .handle_literal
  | .unionOf _ => .ok .handle_union
  | t => .error (unsupportedMsg t)

/-- The editor-node trees the handlers construct (Qt widget trees, structure
only).  A container editor owns its child editors, mirroring parent-child
widget ownership. -/
inductive Editor where
  | spinBox : Editor
  | doubleSpinBox : Editor
  | lineEdit : Editor
  | checkBox : Editor
  | dateTimeEdit : Editor
  | dateEdit : Editor
  | timeEdit : Editor
  | comboBox (items : List String) : Editor
  | emptyWidget : Editor
  | listContainer (itemEditor : Editor) : Editor
  | dictContainer (keyEditor valueEditor : Editor) : Editor
  | unionContainer (branchEditors : List Editor) : Editor
  | formWidget (rows : List (String × Editor)) : Editor
  deriving Repr

mutual

/-- Running `type_dispatch(t)(field)` to completion: dispatch the type, then
run the selected handler, which for the container handlers recursively
dispatches and builds every member type (`handle_list` its item,
`handle_dict` its key and value, `handle_union` every branch eagerly,
`handle_BaseModel` every field in declaration order).  A raised
`NotImplementedError` anywhere below propagates as `Except.error`, so a
failing member aborts the whole enclosing construction and no editor tree is
returned. -/
def buildBinding (t : PyType) : Except String Editor :=
  match type_dispatch t with
  | .error e => .error e
  | .ok h => runHandler h t

/-- The construction body of the handler selected for `t`. -/
def runHandler (h : Handler) (t : PyType) : Except String Editor :=
  match h, t with
  | .handle_int, _ => .ok .spinBox
  | .handle_numeric, _ => .ok .doubleSpinBox
  | .handle_str, _ => .ok .lineEdit
  | .handle_bool, _ => .ok .checkBox
  | .handle_datetime, _ => .ok .dateTimeEdit
  | .handle_date, _ => .ok .dateEdit
  | .handle_time, _ => .ok .timeEdit
  | .handle_None, _ => .ok .emptyWidget
  | .handle_enums, t =>
    match t with
    | .enumTy ms => .ok (.comboBox (ms.map EnumMember.value))
    | _ => .ok (.comboBox [])
  | .handle_literal, t =>
    match t with
    | .literalOf vals => .ok (.comboBox (vals.map PyLit.pyStr))
    | _ => .ok (.comboBox [])
  | .handle_list, t =>
    match t with
    | .listOf item =>
      match buildBinding item with
      | .error e => .error e
      | .ok itemEditor => .ok (.listContainer itemEditor)
    | _ => .error "handle_list applied to a non-list annotation"
  | .handle_dict, t =>
    match t with
    | .dictOf k v =>
      match buildBinding k with
      | .error e => .error e
      | .ok keyEditor =>
        match buildBinding v with
        | .error e => .error e
        | .ok valueEditor => .ok (.dictContainer keyEditor valueEditor)
    | _ => .error "handle_dict applied to a non-dict annotation"
  | .handle_union, t =>
    match t with
    | .unionOf branches =>
      match buildList branches with
      | .error e => .error e
      | .ok children => .ok (.unionContainer children)
    | _ => .error "handle_union applied to a non-union annotation"
  | .handle_BaseModel, t =>
    match t with
    | .modelTy flds =>
      match buildFields flds with
      | .error e => .error e
      | .ok rows => .ok (.formWidget rows)
    | _ => .error "handle_BaseModel applied to a non-model annotation"

/-- Builder loop of `handle_union`: one binding per branch, eagerly, in order. -/
def buildList (ts : List PyType) : Except String (List Editor) :=
  match ts with
  | [] => .ok []
  | t :: rest =>
    match buildBinding t with
    | .error e => .error e
    | .ok ed =>
      match buildList rest with
      | .error e => .error e
      | .ok eds => .ok (ed :: eds)

/-- Builder loop of `handle_BaseModel`: one binding per field, in declaration order. -/
def buildFields (flds : List (String × PyType)) :
    Except String (List (String × Editor)) :=
  match flds with
  | [] => .ok []
  | (n, t) :: rest =>
    match buildBinding t with
    | .error e => .error e
    | .ok ed =>
      match buildFields rest with
      | .error e => .error e
      | .ok eds => .ok ((n, ed) :: eds)

end

/-! ## Field metadata and the primitive widgets -/

/-- The slice of pydantic `FieldInfo` the handlers can see: the annotation
plus any numeric constraint metadata (`annotated_types.Ge` / `Le`) the schema
declared on the field. -/
structure FieldInfo where
  annot : PyType
  ge : Option Int := none
  le : Option Int := none

/-- A `QSpinBox`: its accepted range and its current value. -/
structure QSpinBox where
  minimum : Int
  maximum : Int
  value : Int
  deriving Repr, DecidableEq

/-- A `QDoubleSpinBox`: its accepted range and its current value (reals
restricted to the rationals representable in the embedding). -/
structure QDoubleSpinBox where
  minimum : Int
  maximum : Int
  value : Rat
  deriving Repr, DecidableEq

/-- A `QLineEdit`: its current text. -/
structure QLineEdit where
  text : String
  deriving Repr, DecidableEq

/-- A `QCheckBox`: its current checked state. -/
structure QCheckBox where
  checked : Bool
  deriving Repr, DecidableEq

/-- A `QComboBox`: its item list and the currently selected index. -/
structure ComboBox where
  items : List String
  currentIndex : Nat
  deriving Repr, DecidableEq

/-- Reading `QComboBox.currentText()`: the text at the current index, `""` when the
index is out of range (Qt's no-selection rendering). -/
def ComboBox.currentText (w : ComboBox) : String :=
  w.items.getD w.currentIndex ""

/-- Handler `handle_int` (handlers/std_types.py): builds a spin box whose range is set
unconditionally to `(-(2**31), 2**31 - 1)` — the `field` argument is never
read — and returns `widget.value`, a bound method that reads the widget state
current at call time. -/
def handle_int (_field : FieldInfo) : QSpinBox × (QSpinBox → Int) :=
  ({ minimum := -(2 ^ 31), maximum := 2 ^ 31 - 1, value := 0 }, fun w => w.value)

/-- Handler `handle_numeric` (handlers/std_types.py): same shape as `handle_int` over
a `QDoubleSpinBox`; the `field` argument is never read. -/
def handle_numeric (_field : FieldInfo) : QDoubleSpinBox × (QDoubleSpinBox → Rat) :=
  ({ minimum := -(2 ^ 31), maximum := 2 ^ 31 - 1, value := 0 }, fun w => w.value)

/-- Handler `handle_str`: a line edit and its live `widget.text` reader. -/
def handle_str (_field : FieldInfo) : QLineEdit × (QLineEdit → String) :=
  ({ text := "" }, fun w => w.text)

/-- Handler `handle_bool`: a check box and its live `widget.isChecked` reader. -/
def handle_bool (_field : FieldInfo) : QCheckBox × (QCheckBox → Bool) :=
  ({ checked := false }, fun w => w.checked)

/-! ## Date and time widgets

The date/time handlers return `widget.dateTime().toPython` (resp.
`widget.date().toPython`, `widget.time().toPython`).  In Python the call
`widget.dateTime()` is evaluated while the handler runs; the expression's
value is the `toPython` method bound to that already-computed snapshot
object, so the returned callable yields the widget's construction-time value
forever, no matter how the user edits the widget afterwards.  The embedding
represents each widget's displayed instant as an abstract integer (`0` at
construction). -/

/-- A `QDateTimeEdit`: its displayed instant, abstractly. -/
structure QDateTimeEdit where
  dateTimeVal : Int
  deriving Repr, DecidableEq

/-- A `QDateEdit`: its displayed date, abstractly. -/
structure QDateEdit where
  dateVal : Int
  deriving Repr, DecidableEq

/-- A `QTimeEdit`: its displayed time of day, abstractly. -/
structure QTimeEdit where
  timeVal : Int
  deriving Repr, DecidableEq

/-- Handler `handle_datetime`: the extractor is `toPython` bound to the snapshot
`widget.dateTime()` taken at construction, hence constant in the live widget
state. -/
def handle_datetime (_field : FieldInfo) : QDateTimeEdit × (QDateTimeEdit → Int) :=
  let widget : QDateTimeEdit := { dateTimeVal := 0 }
  let snapshot : Int := widget.dateTimeVal
  (widget, fun _w => snapshot)

/-- Handler `handle_date`: extractor bound to the construction-time `widget.date()`
snapshot. -/
def handle_date (_field : FieldInfo) : QDateEdit × (QDateEdit → Int) :=
  let widget : QDateEdit := { dateVal := 0 }
  let snapshot : Int := widget.dateVal
  (widget, fun _w => snapshot)

/-- Handler `handle_time`: extractor bound to the construction-time `widget.time()`
snapshot. -/
def handle_time (_field : FieldInfo) : QTimeEdit × (QTimeEdit → Int) :=
  let widget : QTimeEdit := { timeVal := 0 }
  let snapshot : Int := widget.timeVal
  (widget, fun _w => snapshot)

/-- What the date/time extractors are documented (and specified) to do: read
the live widget state at call time.  Stated from the spec sentence
"a pure, repeatedly-callable function ... that reads current editor state";
compared against `handle_datetime` in the C3 theorems. -/
def claimed_datetime_extractor : QDateTimeEdit → Int := fun w => w.dateTimeVal

/-! ## Python dict semantics -/

/-- Assignment `m[k] = v` on a Python dict kept as an insertion-ordered
association list: overwrite in place when the key exists, append otherwise. -/
def dictInsert [DecidableEq K] (m : List (K × V)) (k : K) (v : V) : List (K × V) :=
  if m.any (fun p => p.1 = k) then
    m.map (fun p => if p.1 = k then (k, v) else p)
  else
    m ++ [(k, v)]

/-- Python `m[k]` lookup, `none` for the raised `KeyError`. -/
def dictGet [DecidableEq K] : List (K × V) → K → Option V
  | [], _ => none
  | p :: rest, k => if p.1 = k then some p.2 else dictGet rest k

/-- Python `dict(pairs)` or a dict comprehension: fold assignments left to right. -/
def dictOfPairs [DecidableEq K] (pairs : List (K × V)) : List (K × V) :=
  pairs.foldl (fun m p => dictInsert m p.1 p.2) []

/-- Python `m.update(new)`: fold the new pairs into `m`. -/
def dictUpdate [DecidableEq K] (m new : List (K × V)) : List (K × V) :=
  new.foldl (fun acc p => dictInsert acc p.1 p.2) m

/-! ## The list editor (widgets.py `ListEditWidget`, std_types.py `handle_list`)

`add_value` stores `repr(item)` as a new last row; `get_values` maps
`ast.literal_eval` over the rows in index order (a raised exception becomes
`none` for the whole call).  The embedding is for `list[int]`, the item type
of the claim; the staging editor is the `QSpinBox` that `handle_list` builds
for the item type via `type_dispatch(int)`. -/

/-- The rows of a `ListEditWidget`, each the stored string representation of
one added item. -/
structure ListEditWidget where
  rows : List String
  deriving Repr, DecidableEq

/-- Method `ListEditWidget.add_value(item)`: `self.addItem(repr(item))`. -/
def ListEditWidget.add_value (w : ListEditWidget) (item : Int) : ListEditWidget :=
  { rows := w.rows ++ [reprInt item] }

/-- Mapping `ast.literal_eval` over every row, in index order, failing as a whole if
any row fails (the comprehension raises). -/
def evalRows : List String → Option (List Int)
  | [] => some []
  | s :: rest =>
    match literal_eval_int s, evalRows rest with
    | some v, some vs => some (v :: vs)
    | _, _ => none

/-- Method `ListEditWidget.get_values()`. -/
def ListEditWidget.get_values (w : ListEditWidget) : Option (List Int) :=
  evalRows w.rows

/-- The editor built by `handle_list` for `list[int]`: the persistent staging
item editor (built once, reused across adds) and the growable list widget. -/
structure ListIntEditor where
  staging : QSpinBox
  listw : ListEditWidget
  deriving Repr, DecidableEq

/-- Handler `handle_list` applied to a `list[int]` field: dispatches the item type
(to `handle_int`), builds the staging editor and an empty `ListEditWidget`,
and returns `list_widget.get_values` as the extractor. -/
def handle_list_int (_field : FieldInfo) :
    ListIntEditor × (ListIntEditor → Option (List Int)) :=
  ({ staging := (handle_int { annot := .intTy }).1, listw := { rows := [] } },
    fun ed => ed.listw.get_values)

/-- The user types a value into the staging spin box. -/
def ListIntEditor.setStaging (ed : ListIntEditor) (n : Int) : ListIntEditor :=
  { ed with staging := { ed.staging with value := n } }

/-- One click of the Add button:
`list_widget.add_value(item_getter())` — the staging extractor is read at
click time and its current value appended as a new row. -/
def ListIntEditor.clickAdd (ed : ListIntEditor) : ListIntEditor :=
  { ed with
    listw := ed.listw.add_value ((handle_int { annot := .intTy }).2 ed.staging) }

/-- The interaction "for each value: type it into the staging editor, click
Add", folded over a list of values. -/
def ListIntEditor.addAll (ed : ListIntEditor) (vs : List Int) : ListIntEditor :=
  vs.foldl (fun e v => (e.setStaging v).clickAdd) ed

/-! ## The mapping editor (widgets.py `DictEditWidget`)

Rows are the table's (key, value) pairs in display order; `keys` is the
private `self.__keys` set, holding the actual key objects ever accepted.  The
table itself stores `repr(key)` / `repr(value)` strings which `get_dict`
recovers with `ast.literal_eval`; for the literal key/value types in scope
that pair is an exact inverse (proved for `int` above), so the rows carry the
typed pairs directly.  Key types are required hashable with decidable
equality; the `TypeError` branch of `add_pair` (unhashable key) cannot fire
for such keys and is represented by the `unhashableKey` warning constructor
remaining unused. -/

/-- The warnings `add_pair` prints. -/
inductive DictWarning where
  | duplicateKey : DictWarning
  | unhashableKey : DictWarning
  deriving Repr, DecidableEq

/-- The state of a `DictEditWidget`. -/
structure DictEditWidget (K V : Type) where
  rows : List (K × V)
  keys : List K

/-- The freshly constructed widget: no rows, `self.__keys = set()`. -/
def DictEditWidget.empty : DictEditWidget K V := { rows := [], keys := [] }

/-- Method `DictEditWidget.add_pair(key, value)`: a key already in `self.__keys` is
rejected with a printed warning and no state change; otherwise the key is
added to `self.__keys` and the pair appended as a new bottom row. -/
def DictEditWidget.add_pair [DecidableEq K] (w : DictEditWidget K V) (k : K)
    (v : V) : DictEditWidget K V × Option DictWarning :=
  if k ∈ w.keys then
    (w, some .duplicateKey)
  else
    ({ rows := w.rows ++ [(k, v)], keys := k :: w.keys }, none)

/-- The Remove-Selected-Row context-menu action on row `i`
(`self.removeRow(row)`): the row leaves the table, but `self.__keys` is never
updated. -/
def DictEditWidget.removeRow (w : DictEditWidget K V) (i : Nat) :
    DictEditWidget K V :=
  { w with rows := w.rows.eraseIdx i }

/-- Method `DictEditWidget.get_dict()`: replay the rows top to bottom into a Python
dict (`result[key] = value`). -/
def DictEditWidget.get_dict [DecidableEq K] (w : DictEditWidget K V) :
    List (K × V) :=
  w.rows.foldl (fun m p => dictInsert m p.1 p.2) []

/-- One user interaction with the mapping editor. -/
inductive DictOp (K V : Type) where
  | add (k : K) (v : V) : DictOp K V
  | remove (i : Nat) : DictOp K V

/-- Apply one interaction (the warning of a rejected add is printed and
dropped). -/
def DictEditWidget.applyOp [DecidableEq K] (w : DictEditWidget K V) :
    DictOp K V → DictEditWidget K V
  | .add k v => (w.add_pair k v).1
  | .remove i => w.removeRow i

/-- Apply a whole interaction sequence. -/
def DictEditWidget.runOps [DecidableEq K] (w : DictEditWidget K V)
    (ops : List (DictOp K V)) : DictEditWidget K V :=
  ops.foldl DictEditWidget.applyOp w

/-! ## Universal widget states and values

The union handler keys its getter dict by widget object and each getter is a
closure reading its own widget's live state.  The embedding gives every
widget a numeric identity, keeps all live widget states in a store indexed by
identity, and lets getters close over their widget's identity. -/

/-- The live state of one widget, as read by a branch getter. -/
inductive UState where
  | spin (v : Int) : UState
  | dspin (v : Rat) : UState
  | line (s : String) : UState
  | check (b : Bool) : UState
  | unitw : UState
  deriving Repr, DecidableEq

/-- A Python value produced by an extractor. -/
inductive UVal where
  | int (n : Int) : UVal
  | float (q : Rat) : UVal
  | str (s : String) : UVal
  | bool (b : Bool) : UVal
  | none : UVal
  deriving Repr, DecidableEq

/-- All live widget states, by widget identity. -/
def Store : Type := Nat → UState

/-- Reading a spin box's `value()` from its live state. -/
def UState.asSpin : UState → Int
  | .spin v => v
  | _ => 0

/-- Reading a line edit's `text()` from its live state. -/
def UState.asLine : UState → String
  | .line s => s
  | _ => ""

/-- The getter `handle_int` returns, as a closure over the spin box with
identity `wid`: it reads that widget's state current at call time. -/
def intGetter (wid : Nat) : Store → UVal := fun store => .int (store wid).asSpin

/-- The getter `handle_str` returns, closed over line edit `wid`. -/
def strGetter (wid : Nat) : Store → UVal := fun store => .str (store wid).asLine

/-! ## The union editor (handlers/special_forms.py `handle_union`) -/

/-- A union branch binding as produced by
`type_dispatch(union_type)(FieldInfo.from_annotation(union_type))`: the
branch's widget identity and its getter. -/
structure Binding where
  widgetId : Nat
  getter : Store → UVal

/-- The editor `handle_union` wires: `widget_mapping` is
`dict((widget, getter) pairs)` keyed by widget identity, and the stacked
widget holds the dict's keys in iteration order
(`for widget, t in zip(widget_mapping, union_types)` followed by
`stack.addWidget(widget)`). -/
structure UnionEditor where
  widgetMapping : List (Nat × (Store → UVal))
  stackWidgets : List Nat

/-- The mutable interaction state of the union editor: the selector index
(`currentIndexChanged` is wired to `stack.setCurrentIndex`, so selector and
stack indices coincide) together with the live states of the branch
widgets. -/
structure UnionState where
  currentIndex : Nat
  store : Store

/-- Handler `handle_union` given the already-built branch bindings: build the widget
mapping and the stack, and return the extractor
`lambda: widget_mapping[stack.currentWidget()]()` — look up the widget at the
current stack index in the mapping and invoke the getter found there (a
missing current widget raises a `KeyError`, here `none`). -/
def handle_union (branches : List Binding) :
    UnionEditor × (UnionEditor → UnionState → Option UVal) :=
  let mapping := dictOfPairs (branches.map (fun b => (b.widgetId, b.getter)))
  ({ widgetMapping := mapping, stackWidgets := mapping.map Prod.fst },
    fun ed st =>
      match ed.stackWidgets.get? st.currentIndex with
      | Option.none => Option.none
      | Option.some wid => (dictGet ed.widgetMapping wid).map (fun g => g st.store))

/-! ## The literal handler (handlers/special_forms.py `handle_literal`) -/

/-- Python `value_map = \x7bstr(v): v for v in typing.get_args(annotation)\x7d`. -/
def literalValueMap (vals : List PyLit) : List (String × PyLit) :=
  dictOfPairs (vals.map (fun v => (v.pyStr, v)))

/-- Handler `handle_literal`: a combo box whose items are `value_map.keys()` in
insertion order, and the extractor
`lambda: value_map[widget.currentText()]` (`none` for the `KeyError`). -/
def handle_literal (vals : List PyLit) :
    ComboBox × (ComboBox → Option PyLit) :=
  let value_map := literalValueMap vals
  ({ items := value_map.map Prod.fst, currentIndex := 0 },
    fun w => dictGet value_map w.currentText)

/-! ## The enum handler (handlers/std_types.py `handle_enums`) -/

/-- Handler `handle_enums`: `widget.addItems([member.value for member in annotation])`
— iteration over an `Enum` class yields the members in declaration order —
and the extractor is the live `widget.currentText`. -/
def handle_enums (members : List EnumMember) :
    ComboBox × (ComboBox → String) :=
  ({ items := members.map EnumMember.value, currentIndex := 0 },
    ComboBox.currentText)

/-! ## The top-level session (main.py `Input`, handlers/pydantic_types.py
`handle_BaseModel`)

`Input` builds the root binding, starts the event loop, and wires
`btns.accepted` to `lambda: vals.update(getter())` then `app.quit`, and
`btns.rejected` to `app.quit` alone.  The session ends with exactly one of
the two signals; the slots connected to that signal run in connection
order. -/

/-- The root getter `handle_BaseModel` returns:
`\x7bfield_name: getter() for field_name, getter in field_val_map.items()\x7d`,
one entry per field in declaration order, each produced by that field's own
extractor reading the editor state passed in. -/
def rootGetter {σ : Type} (flds : List (String × (σ → UVal))) (st : σ) :
    List (String × UVal) :=
  flds.map (fun p => (p.1, p.2 st))

/-- The terminal signal of the dialog session. -/
inductive Outcome where
  | accepted : Outcome
  | rejected : Outcome
  deriving Repr, DecidableEq

/-- The observable state of one `Input` session: the `vals` dict, how many
times the root extractor has been invoked, and whether the event loop is
still running. -/
structure Session where
  vals : List (String × UVal)
  getterCalls : Nat
  running : Bool

/-- The slots `Input` connects. -/
inductive Slot where
  | updateVals : Slot
  | quitLoop : Slot

/-- The slots fired by each terminal signal, in connection order. -/
def slotsFor : Outcome → List Slot
  | .accepted => [.updateVals, .quitLoop]
  | .rejected => [.quitLoop]

/-- Running one slot.  `updateVals` is `vals.update(getter())`: it invokes
the root extractor once and folds its result into `vals`. -/
def runSlot (getter : Unit → List (String × UVal)) (s : Session) :
    Slot → Session
  | .updateVals =>
    { s with
      vals := dictUpdate s.vals (getter ()),
      getterCalls := s.getterCalls + 1 }
  | .quitLoop => { s with running := false }

/-- Function `Input`: start from `vals = \x7b\x7d`, run the slots of the terminal
signal, return the final session (whose `vals` is the function's return
value). -/
def InputRun (getter : Unit → List (String × UVal)) (outcome : Outcome) :
    Session :=
  (slotsFor outcome).foldl (runSlot getter)
    { vals := [], getterCalls := 0, running := true }

/-! # Theorems

First the supporting lemmas (the decimal round trip, Python dict lemmas,
state-machine invariants), then one theorem per claim. -/

/-! ## The decimal round trip -/

theorem digitVal_digitChar {d : Nat} (hd : d < 10) :
    digitVal (digitChar d) = d := by
  interval_cases d <;> decide

theorem isDigitCh_digitChar {d : Nat} (hd : d < 10) :
    isDigitCh (digitChar d) = true := by
  interval_cases d <;> decide

theorem toDigitsF_mem_lt :
    ∀ (fuel n d : Nat), d ∈ toDigitsF fuel n → d < 10 := by
  intro fuel
  induction fuel with
  | zero => intro n d h; simp [toDigitsF] at h
  | succ fuel ih =>
    intro n d h
    rw [toDigitsF] at h
    by_cases hn : n = 0
    · simp [hn] at h
    · simp [hn] at h
      rcases h with h | h
      · omega
      · exact ih _ _ h

theorem foldl_toDigitsF :
    ∀ (fuel n a : Nat), n ≤ fuel →
      (toDigitsF fuel n).reverse.foldl (fun x d => x * 10 + d) a =
        a * 10 ^ (toDigitsF fuel n).length + n := by
  intro fuel
  induction fuel with
  | zero =>
    intro n a hn
    have : n = 0 := Nat.le_zero.mp hn
    subst this
    simp [toDigitsF]
  | succ fuel ih =>
    intro n a hn
    by_cases hz : n = 0
    · subst hz; simp [toDigitsF]
    · rw [toDigitsF, if_neg hz]
      have hdiv : n / 10 ≤ fuel := by
        have : n / 10 < n := Nat.div_lt_self (Nat.pos_of_ne_zero hz) (by omega)
        omega
      simp only [List.reverse_cons, List.foldl_append, List.foldl_cons,
        List.foldl_nil, List.length_cons]
      rw [ih (n / 10) a hdiv]
      have hmod : 10 * (n / 10) + n % 10 = n := Nat.div_add_mod n 10
      have hpow : 10 ^ ((toDigitsF fuel (n / 10)).length + 1) =
          10 ^ (toDigitsF fuel (n / 10)).length * 10 := by
        rw [pow_succ]
      rw [hpow]
      calc (a * 10 ^ (toDigitsF fuel (n / 10)).length + n / 10) * 10 + n % 10
          = a * (10 ^ (toDigitsF fuel (n / 10)).length * 10) +
              (10 * (n / 10) + n % 10) := by ring
        _ = a * (10 ^ (toDigitsF fuel (n / 10)).length * 10) + n := by rw [hmod]

theorem reprNat_parse (n : Nat) :
    parseNatChars (reprNat n).data = some n := by
  by_cases hz : n = 0
  · subst hz; decide
  · rw [reprNat, if_neg hz]
    set ds : List Nat := (toDigitsF n n).reverse with hds
    have hall : ∀ d ∈ ds, d < 10 := by
      intro d hd
      exact toDigitsF_mem_lt n n d (List.mem_reverse.mp (hds ▸ hd))
    have hne : ds ≠ [] := by
      have : toDigitsF n n ≠ [] := by
        cases n with
        | zero => exact absurd rfl hz
        | succ m =>
          rw [toDigitsF, if_neg hz]
          exact List.cons_ne_nil _ _
      simpa [hds] using this
    have hdata : (String.mk (ds.map digitChar)).data = ds.map digitChar := rfl
    rw [hdata, parseNatChars, if_pos]
    · congr 1
      have hfold :
          (ds.map digitChar).foldl (fun a c => a * 10 + digitVal c) 0 =
            ds.foldl (fun a d => a * 10 + digitVal (digitChar d)) 0 :=
        List.foldl_map _ _ _ _
      rw [hfold]
      have hcongr :
          ds.foldl (fun a d => a * 10 + digitVal (digitChar d)) 0 =
            ds.foldl (fun a d => a * 10 + d) 0 := by
        have : ∀ (l : List Nat) (a : Nat), (∀ d ∈ l, d < 10) →
            l.foldl (fun a d => a * 10 + digitVal (digitChar d)) a =
              l.foldl (fun a d => a * 10 + d) a := by
          intro l
          induction l with
          | nil => intro a _; rfl
          | cons d l ihl =>
            intro a hl
            simp only [List.foldl_cons]
            rw [digitVal_digitChar (hl d (List.mem_cons_self d l))]
            exact ihl _ (fun x hx => hl x (List.mem_cons_of_mem d hx))
        exact this ds 0 hall
      rw [hcongr, hds, foldl_toDigitsF n n 0 le_rfl]
      simp
    · constructor
      · simp [hne]
      · rw [List.all_eq_true]
        intro c hc
        rcases List.mem_map.mp hc with ⟨d, hd, rfl⟩
        exact isDigitCh_digitChar (hall d hd)

theorem reprNat_data_digits (n : Nat) :
    ∀ c ∈ (reprNat n).data, isDigitCh c = true := by
  by_cases hz : n = 0
  · subst hz; decide
  · rw [reprNat, if_neg hz]
    intro c hc
    have hc2 : c ∈ ((toDigitsF n n).reverse.map digitChar) := hc
    rcases List.mem_map.mp hc2 with ⟨d, hd, rfl⟩
    exact isDigitCh_digitChar
      (toDigitsF_mem_lt n n d (List.mem_reverse.mp hd))

theorem evalIntChars_cons (c : Char) (rest : List Char) :
    evalIntChars (c :: rest) =
      if c = '-' then (parseNatChars rest).map (fun m => -(m : Int))
      else (parseNatChars (c :: rest)).map (fun m => (m : Int)) := rfl

theorem literal_eval_reprInt (n : Int) :
    literal_eval_int (reprInt n) = some n := by
  rw [literal_eval_int, reprInt]
  by_cases hneg : n < 0
  · rw [if_pos hneg]
    have hdata : ("-" ++ reprNat n.natAbs).data = '-' :: (reprNat n.natAbs).data := by
      have h2 : ("-" ++ reprNat n.natAbs).data = "-".data ++ (reprNat n.natAbs).data :=
        String.data_append _ _
      rw [h2]
      rfl
    rw [hdata, evalIntChars_cons, if_pos rfl, reprNat_parse]
    exact congrArg some (show -((n.natAbs : Nat) : Int) = n by omega)
  · rw [if_neg hneg]
    have hparse := reprNat_parse n.natAbs
    have hdigits := reprNat_data_digits n.natAbs
    rcases hcs : (reprNat n.natAbs).data with _ | ⟨c, rest⟩
    · rw [hcs] at hparse
      simp [parseNatChars] at hparse
    · have hcdigit : isDigitCh c = true := by
        apply hdigits
        rw [hcs]
        exact List.mem_cons_self c rest
      have hcne : c ≠ '-' := by
        intro h
        subst h
        simp [isDigitCh] at hcdigit
      rw [hcs] at hparse
      rw [evalIntChars_cons, if_neg hcne, hparse]
      exact congrArg some (show ((n.natAbs : Nat) : Int) = n by omega)

/-! ## Python dict lemmas -/

theorem dictInsert_of_fresh [DecidableEq K] {m : List (K × V)} {k : K} (v : V)
    (h : ∀ p ∈ m, p.1 ≠ k) : dictInsert m k v = m ++ [(k, v)] := by
  rw [dictInsert, if_neg]
  simp only [List.any_eq_true, decide_eq_true_eq, not_exists]
  intro p
  rintro ⟨hp, hpk⟩
  exact h p hp hpk

theorem mem_dictInsert [DecidableEq K] {m : List (K × V)} {k : K} {v : V}
    {q : K × V} (h : q ∈ dictInsert m k v) : q.1 = k ∨ q ∈ m := by
  rw [dictInsert] at h
  by_cases hc : (m.any fun p => p.1 = k) = true
  · rw [if_pos hc] at h
    rcases List.mem_map.mp h with ⟨p, hp, hq⟩
    by_cases hpk : p.1 = k
    · left
      rw [← hq, if_pos hpk]
    · right
      rw [← hq, if_neg hpk]
      exact hp
  · rw [if_neg hc] at h
    rcases List.mem_append.mp h with h | h
    · right; exact h
    · left
      have : q = (k, v) := List.mem_singleton.mp h
      rw [this]

theorem foldl_dictInsert_fresh [DecidableEq K] :
    ∀ (pairs m : List (K × V)),
      (m.map Prod.fst ++ pairs.map Prod.fst).Nodup →
      pairs.foldl (fun acc p => dictInsert acc p.1 p.2) m = m ++ pairs := by
  intro pairs
  induction pairs with
  | nil => intro m _; simp
  | cons p rest ih =>
    intro m hnd
    simp only [List.foldl_cons]
    rw [List.map_cons] at hnd
    have hdisj : (m.map Prod.fst).Disjoint (p.1 :: rest.map Prod.fst) :=
      (List.nodup_append.mp hnd).2.2
    have hfresh : ∀ q ∈ m, q.1 ≠ p.1 := by
      intro q hq he
      have h1 : q.1 ∈ m.map Prod.fst := List.mem_map_of_mem Prod.fst hq
      have h2 : q.1 ∈ p.1 :: rest.map Prod.fst := by
        rw [he]
        exact List.mem_cons_self p.1 (rest.map Prod.fst)
      exact hdisj h1 h2
    rw [dictInsert_of_fresh p.2 hfresh]
    have hnd2 : ((m ++ [p]).map Prod.fst ++ rest.map Prod.fst).Nodup := by
      rw [List.map_append]
      simpa [List.append_assoc] using hnd
    rw [ih (m ++ [p]) hnd2]
    simp

theorem dictOfPairs_of_nodup [DecidableEq K] (pairs : List (K × V))
    (h : (pairs.map Prod.fst).Nodup) : dictOfPairs pairs = pairs := by
  have := foldl_dictInsert_fresh pairs [] (by simpa using h)
  simpa [dictOfPairs] using this

theorem dictGet_get_of_nodup [DecidableEq K] :
    ∀ (pairs : List (K × V)) (i : Nat) (h : i < pairs.length),
      (pairs.map Prod.fst).Nodup →
      dictGet pairs (pairs[i]).1 = some (pairs[i]).2 := by
  intro pairs
  induction pairs with
  | nil => intro i h _; simp at h
  | cons p rest ih =>
    intro i h hnd
    rw [List.map_cons] at hnd
    have hparts := List.nodup_cons.mp hnd
    cases i with
    | zero => simp [dictGet]
    | succ j =>
      have hj : j < rest.length := by simpa using h
      have hmem : (rest[j]).1 ∈ rest.map Prod.fst :=
        List.mem_map_of_mem Prod.fst (List.getElem_mem hj)
      have hne : p.1 ≠ (rest[j]).1 := by
        intro he
        rw [he] at hparts
        exact hparts.1 hmem
      have hrec := ih j hj hparts.2
      simp only [List.getElem_cons_succ, dictGet]
      rw [if_neg hne]
      exact hrec

/-! ## List editor lemmas -/

theorem evalRows_map_reprInt : ∀ vs : List Int,
    evalRows (vs.map reprInt) = some vs := by
  intro vs
  induction vs with
  | nil => rfl
  | cons v rest ih => simp [evalRows, literal_eval_reprInt v, ih]

theorem addAll_rows : ∀ (vs : List Int) (ed : ListIntEditor),
    (ed.addAll vs).listw.rows = ed.listw.rows ++ vs.map reprInt := by
  intro vs
  induction vs with
  | nil => intro ed; simp [ListIntEditor.addAll]
  | cons v rest ih =>
    intro ed
    show (((ed.setStaging v).clickAdd).addAll rest).listw.rows = _
    rw [ih]
    simp [ListIntEditor.clickAdd, ListIntEditor.setStaging,
      ListEditWidget.add_value, handle_int]

/-! ## Construction-failure propagation lemmas -/

theorem buildBinding_unfold (t : PyType) :
    buildBinding t =
      match type_dispatch t with
      | .error e => .error e
      | .ok h => runHandler h t := by
  rw [buildBinding]

theorem buildList_cons_unfold (t : PyType) (rest : List PyType) :
    buildList (t :: rest) =
      match buildBinding t with
      | .error e => .error e
      | .ok ed =>
        match buildList rest with
        | .error e => .error e
        | .ok eds => .ok (ed :: eds) := by
  rw [buildList]

theorem buildFields_cons_unfold (n : String) (t : PyType)
    (rest : List (String × PyType)) :
    buildFields ((n, t) :: rest) =
      match buildBinding t with
      | .error e => .error e
      | .ok ed =>
        match buildFields rest with
        | .error e => .error e
        | .ok eds => .ok ((n, ed) :: eds) := by
  rw [buildFields]

theorem buildList_error_of_mem :
    ∀ (ts : List PyType) (b : PyType) (e : String),
      b ∈ ts → buildBinding b = .error e →
      ∃ e2, buildList ts = .error e2 := by
  intro ts
  induction ts with
  | nil => intro b e h _; simp at h
  | cons t rest ih =>
    intro b e hmem hb
    rw [buildList_cons_unfold]
    rcases List.mem_cons.mp hmem with rfl | hmem2
    · exact ⟨e, by rw [hb]⟩
    · rcases hterr : buildBinding t with e3 | ed
      · exact ⟨e3, rfl⟩
      · rcases ih b e hmem2 hb with ⟨e2, he2⟩
        rw [he2]
        exact ⟨e2, rfl⟩

theorem buildFields_error_of_mem :
    ∀ (flds : List (String × PyType)) (n : String) (b : PyType) (e : String),
      (n, b) ∈ flds → buildBinding b = .error e →
      ∃ e2, buildFields flds = .error e2 := by
  intro flds
  induction flds with
  | nil => intro n b e h _; simp at h
  | cons p rest ih =>
    intro n b e hmem hb
    rcases p with ⟨pn, pt⟩
    rw [buildFields_cons_unfold]
    rcases List.mem_cons.mp hmem with heq | hmem2
    · have hpt : pt = b := (congrArg Prod.snd heq).symm
      rw [hpt, hb]
      exact ⟨e, rfl⟩
    · rcases hterr : buildBinding pt with e3 | ed
      · exact ⟨e3, rfl⟩
      · rcases ih n b e hmem2 hb with ⟨e2, he2⟩
        rw [he2]
        exact ⟨e2, rfl⟩

/-! ## Mapping editor invariant lemmas -/

theorem applyOp_keys_mono [DecidableEq K] (w : DictEditWidget K V)
    (op : DictOp K V) {k : K} (hk : k ∈ w.keys) : k ∈ (w.applyOp op).keys := by
  cases op with
  | add k1 v =>
    by_cases h : k1 ∈ w.keys
    · simpa [DictEditWidget.applyOp, DictEditWidget.add_pair, h] using hk
    · simp only [DictEditWidget.applyOp, DictEditWidget.add_pair, if_neg h]
      exact List.mem_cons_of_mem k1 hk
  | remove i =>
    simpa [DictEditWidget.applyOp, DictEditWidget.removeRow] using hk

theorem applyOp_rows_clean [DecidableEq K] (w : DictEditWidget K V)
    (op : DictOp K V) {k : K} (hk : k ∈ w.keys)
    (hrows : ∀ p ∈ w.rows, p.1 ≠ k) :
    ∀ p ∈ (w.applyOp op).rows, p.1 ≠ k := by
  cases op with
  | add k1 v =>
    by_cases h : k1 ∈ w.keys
    · simpa [DictEditWidget.applyOp, DictEditWidget.add_pair, h] using hrows
    · intro p hp
      simp only [DictEditWidget.applyOp, DictEditWidget.add_pair, if_neg h] at hp
      rcases List.mem_append.mp hp with hp2 | hp2
      · exact hrows p hp2
      · have hpk : p = (k1, v) := List.mem_singleton.mp hp2
        rw [hpk]
        intro he
        have he2 : k1 = k := he
        rw [he2] at h
        exact h hk
  | remove i =>
    intro p hp
    simp only [DictEditWidget.applyOp, DictEditWidget.removeRow] at hp
    exact hrows p (List.eraseIdx_subset _ _ hp)

theorem get_dict_no_key [DecidableEq K] (w : DictEditWidget K V) {k : K}
    (hrows : ∀ p ∈ w.rows, p.1 ≠ k) : ∀ q ∈ w.get_dict, q.1 ≠ k := by
  have main : ∀ (rows m : List (K × V)), (∀ p ∈ rows, p.1 ≠ k) →
      (∀ q ∈ m, q.1 ≠ k) →
      ∀ q ∈ rows.foldl (fun m p => dictInsert m p.1 p.2) m, q.1 ≠ k := by
    intro rows
    induction rows with
    | nil => intro m _ hm q hq; exact hm q hq
    | cons r rest ih =>
      intro m hr hm
      simp only [List.foldl_cons]
      apply ih
      · intro p hp
        exact hr p (List.mem_cons_of_mem r hp)
      · intro q hq
        rcases mem_dictInsert hq with h | h
        · rw [h]
          exact hr r (List.mem_cons_self r rest)
        · exact hm q h
  refine main w.rows [] hrows ?_
  intro q hq
  simp at hq

theorem runOps_invariant [DecidableEq K] :
    ∀ (ops : List (DictOp K V)) (w : DictEditWidget K V) (k : K),
      k ∈ w.keys →
      k ∈ (w.runOps ops).keys ∧
      ((∀ p ∈ w.rows, p.1 ≠ k) → ∀ p ∈ (w.runOps ops).rows, p.1 ≠ k) := by
  intro ops
  induction ops with
  | nil => intro w k hk; exact ⟨hk, fun h => h⟩
  | cons op rest ih =>
    intro w k hk
    have h1 : k ∈ (w.applyOp op).keys := applyOp_keys_mono w op hk
    have hrun : w.runOps (op :: rest) = (w.applyOp op).runOps rest := rfl
    rw [hrun]
    exact ⟨(ih _ k h1).1,
      fun hrows => (ih _ k h1).2 (applyOp_rows_clean w op hk hrows)⟩

/-! ## Claim theorems -/

/-- C1: For every type with no matching handler (the bare `set`, `tuple` and
`list` classes, and any other unhandled class), `type_dispatch` raises the
unsupported-type error carrying the offending type's description, and the
failing dispatch constructs no editor nodes (`buildBinding` returns the same
error and no editor tree); a failure on a nested member type — a list's item
type, a dict's key or value type, a union branch, a model field — propagates
up and aborts construction of the entire enclosing binding. -/
theorem dispatch_unsupported_and_propagates :
    (∀ t : PyType,
      (t = PyType.setClass ∨ t = PyType.tupleClass ∨ t = PyType.listClass ∨
        ∃ n, t = PyType.otherClass n) →
      type_dispatch t = .error (unsupportedMsg t) ∧
        buildBinding t = .error (unsupportedMsg t)) ∧
    (∀ (item : PyType) (e : String), buildBinding item = .error e →
      buildBinding (PyType.listOf item) = .error e) ∧
    (∀ (k v : PyType) (e : String), buildBinding k = .error e →
      buildBinding (PyType.dictOf k v) = .error e) ∧
    (∀ (k v : PyType) (ek : Editor) (e : String), buildBinding k = .ok ek →
      buildBinding v = .error e → buildBinding (PyType.dictOf k v) = .error e) ∧
    (∀ (branches : List PyType) (b : PyType) (e : String), b ∈ branches →
      buildBinding b = .error e →
      ∃ e2, buildBinding (PyType.unionOf branches) = .error e2) ∧
    (∀ (flds : List (String × PyType)) (n : String) (t : PyType) (e : String),
      (n, t) ∈ flds → buildBinding t = .error e →
      ∃ e2, buildBinding (PyType.modelTy flds) = .error e2) := by
  refine ⟨?_, ?_, ?_, ?_, ?_, ?_⟩
  · rintro t (rfl | rfl | rfl | ⟨n, rfl⟩) <;>
      exact ⟨rfl, by rw [buildBinding_unfold]; rfl⟩
  · intro item e h
    rw [buildBinding_unfold]
    show runHandler Handler.handle_list (PyType.listOf item) = Except.error e
    rw [runHandler, h]
  · intro k v e h
    rw [buildBinding_unfold]
    show runHandler Handler.handle_dict (PyType.dictOf k v) = Except.error e
    rw [runHandler, h]
  · intro k v ek e hk hv
    rw [buildBinding_unfold]
    show runHandler Handler.handle_dict (PyType.dictOf k v) = Except.error e
    rw [runHandler, hk, hv]
  · intro branches b e hmem hb
    rcases buildList_error_of_mem branches b e hmem hb with ⟨e2, he2⟩
    refine ⟨e2, ?_⟩
    rw [buildBinding_unfold]
    show runHandler Handler.handle_union (PyType.unionOf branches) = Except.error e2
    rw [runHandler, he2]
  · intro flds n t e hmem ht
    rcases buildFields_error_of_mem flds n t e hmem ht with ⟨e2, he2⟩
    refine ⟨e2, ?_⟩
    rw [buildBinding_unfold]
    show runHandler Handler.handle_BaseModel (PyType.modelTy flds) = Except.error e2
    rw [runHandler, he2]

/-- C1 witness: the bare `set` class is rejected with its description in the
message, and the failure propagates out of `list[set]` and out of
`Union[int, tuple]`. -/
theorem dispatch_unsupported_and_propagates_witness :
    type_dispatch PyType.setClass = .error (unsupportedMsg PyType.setClass) ∧
    buildBinding (PyType.listOf PyType.setClass) =
      .error (unsupportedMsg PyType.setClass) ∧
    (∃ e2, buildBinding (PyType.unionOf [PyType.intTy, PyType.tupleClass]) =
      .error e2) := by
  have h := dispatch_unsupported_and_propagates
  have h1 := h.1 PyType.setClass (Or.inl rfl)
  have h2 := h.2.1 PyType.setClass (unsupportedMsg PyType.setClass) h1.2
  have h3 := h.2.2.2.2.1 [PyType.intTy, PyType.tupleClass] PyType.tupleClass
    (unsupportedMsg PyType.tupleClass) (by simp)
    (h.1 PyType.tupleClass (Or.inr (Or.inl rfl))).2
  exact ⟨h1.1, h2, h3⟩

/-- C2: For the mapping editor, adding a pair whose key is already present is
a no-op with a reported warning (not a fatal error), and after adding
("a",1), ("b",2), ("a",9) in that order extraction yields exactly
[("a",1), ("b",2)] — first write wins for every key. -/
theorem dict_editor_first_write_wins :
    (∀ (w : DictEditWidget String Int) (k : String) (v : Int),
      k ∈ w.keys → w.add_pair k v = (w, some DictWarning.duplicateKey)) ∧
    (((((DictEditWidget.empty.add_pair "a" 1).1).add_pair "b" 2).1.add_pair
        "a" 9).1.get_dict = [("a", 1), ("b", 2)] ∧
      ((((DictEditWidget.empty.add_pair "a" 1).1).add_pair "b" 2).1.add_pair
        "a" 9).2 = some DictWarning.duplicateKey) := by
  refine ⟨?_, by decide, by decide⟩
  intro w k v hk
  rw [DictEditWidget.add_pair, if_pos hk]

/-- C2 witness: after adding ("a",1) and ("b",2), the key "a" is present and
the duplicate add of ("a",9) is the warning no-op. -/
theorem dict_editor_first_write_wins_witness :
    ("a" ∈ (((DictEditWidget.empty.add_pair "a" 1).1).add_pair
      "b" 2).1.keys ∧
    (((DictEditWidget.empty.add_pair "a" (1 : Int)).1).add_pair
        "b" 2).1.add_pair "a" 9 =
      ((((DictEditWidget.empty.add_pair "a" 1).1).add_pair "b" 2).1,
        some DictWarning.duplicateKey)) := by
  exact ⟨by decide, dict_editor_first_write_wins.1 _ "a" 9 (by decide)⟩

/-- C3 (code bug): the date, time and datetime extractors do not read the
editor state at extraction time.  `widget.dateTime().toPython` evaluates
`dateTime()` while the builder runs, so the returned callable is bound to a
construction-time snapshot: after the editor's value changes to 42, the
extractor still returns the construction-time value 0, while the documented
behavior (`claimed_datetime_extractor`, "reads current editor state") returns
42. -/
theorem datetime_extractors_stale :
    ((handle_datetime { annot := PyType.datetimeTy }).2 { dateTimeVal := 42 } = 0 ∧
      claimed_datetime_extractor { dateTimeVal := 42 } = 42) ∧
    (∀ w : QDateTimeEdit, (handle_datetime { annot := PyType.datetimeTy }).2 w =
      (handle_datetime { annot := PyType.datetimeTy }).1.dateTimeVal) ∧
    (handle_date { annot := PyType.dateTy }).2 { dateVal := 42 } = 0 ∧
    (handle_time { annot := PyType.timeTy }).2 { timeVal := 42 } = 0 ∧
    (0 : Int) ≠ 42 :=
  ⟨⟨rfl, rfl⟩, fun _ => rfl, rfl, rfl, by decide⟩

/-- C4: each Add click appends the staging extractor's value current at click
time as a new entry, and for every sequence of added values the collection
extractor returns them in insertion order; in particular adding 3, 1, 2
extracts [3, 1, 2]. -/
theorem list_editor_insertion_order :
    (∀ (f : FieldInfo) (ed : ListIntEditor),
      ed.clickAdd.listw.rows =
        ed.listw.rows ++ [reprInt ((handle_int f).2 ed.staging)]) ∧
    (∀ (f : FieldInfo) (vs : List Int),
      (handle_list_int f).2 (((handle_list_int f).1).addAll vs) = some vs) ∧
    (handle_list_int { annot := PyType.listOf PyType.intTy }).2
      (((handle_list_int { annot := PyType.listOf PyType.intTy }).1).addAll
        [3, 1, 2]) = some [3, 1, 2] := by
  have h2 : ∀ (f : FieldInfo) (vs : List Int),
      (handle_list_int f).2 (((handle_list_int f).1).addAll vs) = some vs := by
    intro f vs
    show ((((handle_list_int f).1).addAll vs).listw).get_values = some vs
    rw [ListEditWidget.get_values, addAll_rows]
    show evalRows ([] ++ vs.map reprInt) = some vs
    rw [List.nil_append]
    exact evalRows_map_reprInt vs
  exact ⟨fun f ed => rfl, h2, h2 _ _⟩

/-- C6 counterexample: a field declaring the tighter bounds ge 0 and le 10
still gets the full default range, so the claimed "the tighter bounds are
applied instead" is false at this input. -/
theorem int_range_ignores_bounds_counterexample :
    (handle_int { annot := PyType.intTy, ge := some 0, le := some 10 }).1.minimum ≠ 0 ∧
    (handle_int { annot := PyType.intTy, ge := some 0, le := some 10 }).1.maximum ≠ 10 ∧
    (handle_int { annot := PyType.intTy, ge := some 0, le := some 10 }).1.minimum =
      -(2 ^ 31) ∧
    (handle_int { annot := PyType.intTy, ge := some 0, le := some 10 }).1.maximum =
      2 ^ 31 - 1 := by
  refine ⟨?_, ?_, rfl, rfl⟩ <;> norm_num [handle_int]

/-- C6 amended: the int and float/Decimal builders set the editor's accepted
range to exactly the 32-bit signed window for every field; schema-declared
bounds are never consulted. -/
theorem numeric_range_always_int32 (f : FieldInfo) :
    (handle_int f).1.minimum = -(2 ^ 31) ∧
    (handle_int f).1.maximum = 2 ^ 31 - 1 ∧
    (handle_numeric f).1.minimum = -(2 ^ 31) ∧
    (handle_numeric f).1.maximum = 2 ^ 31 - 1 :=
  ⟨rfl, rfl, rfl, rfl⟩

/-- C10: the mapping editor's seen-key set only grows: once a key is in
`self.__keys`, it stays there through any sequence of adds and row removals,
every later add of that key is rejected as the duplicate no-op, and — once
the rows holding the key are gone — the extracted mapping can never again
contain an entry for it. -/
theorem dict_editor_keys_never_forget :
    ∀ (K V : Type) [DecidableEq K] (w : DictEditWidget K V)
      (ops : List (DictOp K V)) (k : K),
      k ∈ w.keys →
      k ∈ (w.runOps ops).keys ∧
      (∀ v, (w.runOps ops).add_pair k v =
        (w.runOps ops, some DictWarning.duplicateKey)) ∧
      ((∀ p ∈ w.rows, p.1 ≠ k) →
        ∀ q ∈ (w.runOps ops).get_dict, q.1 ≠ k) := by
  intro K V _ w ops k hk
  have hI := runOps_invariant ops w k hk
  refine ⟨hI.1, ?_, ?_⟩
  · intro v
    rw [DictEditWidget.add_pair, if_pos hI.1]
  · intro hrows
    exact get_dict_no_key _ (hI.2 hrows)

/-- C10 witness: add ("k",10), remove its row, then add ("k",99): the key is
still recorded, and the extracted mapping has no entry for "k". -/
theorem dict_editor_keys_never_forget_witness :
    "k" ∈ ((((DictEditWidget.empty.add_pair "k" (10 : Int)).1).removeRow
      0).runOps [DictOp.add "k" 99]).keys ∧
    ∀ q ∈ ((((DictEditWidget.empty.add_pair "k" (10 : Int)).1).removeRow
      0).runOps [DictOp.add "k" 99]).get_dict, q.1 ≠ "k" := by
  have h := dict_editor_keys_never_forget String Int
    (((DictEditWidget.empty.add_pair "k" (10 : Int)).1).removeRow 0)
    [DictOp.add "k" 99] "k" (by decide)
  exact ⟨h.1, h.2.2 (by decide)⟩

/-- C5: the union extractor invokes only the currently-selected branch's
getter and returns its value; concretely, for the branches of
`Union[int, str]`, selecting index 1 while the string branch's editor holds
"hello" extracts the string "hello". -/
theorem union_selected_branch_only :
    (∀ (branches : List Binding), (branches.map Binding.widgetId).Nodup →
      ∀ (i : Nat) (h : i < branches.length) (st : UnionState),
        st.currentIndex = i →
        (handle_union branches).2 (handle_union branches).1 st =
          some ((branches[i]).getter st.store)) ∧
    (∀ store : Store, store 1 = UState.line "hello" →
      (handle_union [⟨0, intGetter 0⟩, ⟨1, strGetter 1⟩]).2
        (handle_union [⟨0, intGetter 0⟩, ⟨1, strGetter 1⟩]).1
        { currentIndex := 1, store := store } = some (UVal.str "hello")) := by
  have hgen : ∀ (branches : List Binding), (branches.map Binding.widgetId).Nodup →
      ∀ (i : Nat) (h : i < branches.length) (st : UnionState),
        st.currentIndex = i →
        (handle_union branches).2 (handle_union branches).1 st =
          some ((branches[i]).getter st.store) := by
    intro branches hnd i h st hcur
    have hkeys : ((branches.map fun b => (b.widgetId, b.getter)).map Prod.fst) =
        branches.map Binding.widgetId := by
      rw [List.map_map]
      rfl
    have hmap : dictOfPairs (branches.map fun b => (b.widgetId, b.getter)) =
        branches.map fun b => (b.widgetId, b.getter) :=
      dictOfPairs_of_nodup _ (by rw [hkeys]; exact hnd)
    show (match ((handle_union branches).1).stackWidgets.get? st.currentIndex with
      | Option.none => Option.none
      | Option.some wid =>
        (dictGet ((handle_union branches).1).widgetMapping wid).map
          (fun g => g st.store)) = some ((branches[i]).getter st.store)
    have hstack : ((handle_union branches).1).stackWidgets =
        (branches.map fun b => (b.widgetId, b.getter)).map Prod.fst := by
      show (dictOfPairs (branches.map fun b => (b.widgetId, b.getter))).map
        Prod.fst = _
      rw [hmap]
    have hmapping : ((handle_union branches).1).widgetMapping =
        branches.map fun b => (b.widgetId, b.getter) := hmap
    have hi : i < ((branches.map fun b => (b.widgetId, b.getter)).map
        Prod.fst).length := by simpa using h
    have hpairs : i < (branches.map fun b => (b.widgetId, b.getter)).length := by
      simpa using h
    have hget : ((branches.map fun b => (b.widgetId, b.getter)).map
        Prod.fst).get? i =
        some (((branches.map fun b => (b.widgetId, b.getter)).get
          ⟨i, hpairs⟩).1) := by
      rw [List.get?_eq_getElem?, List.getElem?_eq_getElem hi, List.getElem_map]
      rfl
    rw [hstack, hmapping, hcur, hget]
    show (dictGet (branches.map fun b => (b.widgetId, b.getter))
      (((branches.map fun b => (b.widgetId, b.getter)).get ⟨i, hpairs⟩).1)).map
        (fun g => g st.store) = some ((branches[i]).getter st.store)
    have hdg := dictGet_get_of_nodup (branches.map fun b => (b.widgetId, b.getter))
      i hpairs (by rw [hkeys]; exact hnd)
    rw [show ((branches.map fun b => (b.widgetId, b.getter)).get ⟨i, hpairs⟩) =
        (branches.map fun b => (b.widgetId, b.getter))[i] from rfl]
    rw [hdg, Option.map_some']
    have hsnd : ((branches.map fun b => (b.widgetId, b.getter))[i]).2 =
        (branches[i]).getter := by
      rw [List.getElem_map]
    rw [hsnd]
  refine ⟨hgen, ?_⟩
  intro store hstore
  have h := hgen [⟨0, intGetter 0⟩, ⟨1, strGetter 1⟩] (by decide) 1 (by decide)
    { currentIndex := 1, store := store } rfl
  rw [h]
  show some (UVal.str (store 1).asLine) = some (UVal.str "hello")
  rw [hstore]
  rfl

/-- C5 witness: with the string branch's line edit holding "hello" and branch
index 1 selected, extraction yields the string value. -/
theorem union_selected_branch_only_witness :
    (handle_union [⟨0, intGetter 0⟩, ⟨1, strGetter 1⟩]).2
      (handle_union [⟨0, intGetter 0⟩, ⟨1, strGetter 1⟩]).1
      { currentIndex := 1,
        store := fun n => if n = 1 then UState.line "hello" else UState.spin 7 } =
      some (UVal.str "hello") :=
  union_selected_branch_only.2
    (fun n => if n = 1 then UState.line "hello" else UState.spin 7) rfl

/-- C7: when the literal's allowed values have pairwise-distinct canonical
string forms, the combo box presents the display strings in declaration
order, and selecting the display string of value i extracts the original
typed value i back through the display-string map. -/
theorem literal_round_trip :
    ∀ (vals : List PyLit), (vals.map PyLit.pyStr).Nodup →
      (handle_literal vals).1.items = vals.map PyLit.pyStr ∧
      ∀ (i : Nat) (h : i < vals.length),
        (handle_literal vals).2
          { items := (handle_literal vals).1.items, currentIndex := i } =
          some vals[i] := by
  intro vals hnd
  have hkeys : ((vals.map fun v => (v.pyStr, v)).map Prod.fst) =
      vals.map PyLit.pyStr := by
    rw [List.map_map]
    rfl
  have hmap : literalValueMap vals = vals.map fun v => (v.pyStr, v) := by
    rw [literalValueMap]
    exact dictOfPairs_of_nodup _ (by rw [hkeys]; exact hnd)
  have hitems : (handle_literal vals).1.items = vals.map PyLit.pyStr := by
    show (literalValueMap vals).map Prod.fst = _
    rw [hmap, hkeys]
  refine ⟨hitems, ?_⟩
  intro i h
  show dictGet (literalValueMap vals)
    (ComboBox.currentText
      { items := (handle_literal vals).1.items, currentIndex := i }) =
    some vals[i]
  have hlen : i < (vals.map PyLit.pyStr).length := by simpa using h
  have htext : ComboBox.currentText
      { items := (handle_literal vals).1.items, currentIndex := i } =
      (vals[i]).pyStr := by
    rw [ComboBox.currentText]
    show ((handle_literal vals).1.items).getD i "" = _
    rw [hitems, List.getD_eq_getElem _ _ hlen, List.getElem_map]
  rw [htext, hmap]
  have hpairs : i < (vals.map fun v => (v.pyStr, v)).length := by simpa using h
  have hfst : ((vals.map fun v => (v.pyStr, v))[i]).1 = (vals[i]).pyStr := by
    rw [List.getElem_map]
  have hsnd : ((vals.map fun v => (v.pyStr, v))[i]).2 = vals[i] := by
    rw [List.getElem_map]
  rw [← hfst, dictGet_get_of_nodup _ i hpairs (by rw [hkeys]; exact hnd), hsnd]

/-- C7 witness: for `Literal[1, "x"]` the display strings are "1" and "x",
and selecting "1" (index 0) extracts the int literal 1, not the string
"1". -/
theorem literal_round_trip_witness :
    ([PyLit.int 1, PyLit.str "x"].map PyLit.pyStr).Nodup ∧
    (handle_literal [PyLit.int 1, PyLit.str "x"]).2
      { items := (handle_literal [PyLit.int 1, PyLit.str "x"]).1.items,
        currentIndex := 0 } = some (PyLit.int 1) := by
  refine ⟨by decide, ?_⟩
  exact (literal_round_trip [PyLit.int 1, PyLit.str "x"] (by decide)).2 0
    (by decide)

/-- C8: the enum combo box presents the member values in declaration order,
and selecting index i extracts member i's value (the combo text is that
value itself, so the extracted string is the member's value even where it
differs from the member's name). -/
theorem enum_declaration_order :
    ∀ (members : List EnumMember),
      (handle_enums members).1.items = members.map EnumMember.value ∧
      ∀ (i : Nat) (h : i < members.length),
        (handle_enums members).2
          { items := (handle_enums members).1.items, currentIndex := i } =
          (members[i]).value := by
  intro members
  refine ⟨rfl, ?_⟩
  intro i h
  show ComboBox.currentText
    { items := members.map EnumMember.value, currentIndex := i } = _
  rw [ComboBox.currentText]
  have hlen : i < (members.map EnumMember.value).length := by simpa using h
  show (members.map EnumMember.value).getD i "" = _
  rw [List.getD_eq_getElem _ _ hlen, List.getElem_map]

/-- C8 witness: for members RED ↦ "red", BLUE ↦ "blue" (names differing from
values), selecting index 1 extracts the value "blue", not the name
"BLUE". -/
theorem enum_declaration_order_witness :
    (handle_enums [⟨"RED", "red"⟩, ⟨"BLUE", "blue"⟩]).2
      { items := (handle_enums [⟨"RED", "red"⟩, ⟨"BLUE", "blue"⟩]).1.items,
        currentIndex := 1 } = "blue" ∧ ("blue" : String) ≠ "BLUE" := by
  refine ⟨?_, by decide⟩
  exact (enum_declaration_order [⟨"RED", "red"⟩, ⟨"BLUE", "blue"⟩]).2 1
    (by decide)

/-- C9: the session has exactly two terminal outcomes: on confirmation the
root extractor runs exactly once and the returned `vals` maps each root
field name to its extracted value; on cancellation `vals` stays empty and
the extractor is never invoked. -/
theorem input_confirm_cancel :
    ∀ {σ : Type} (flds : List (String × (σ → UVal))) (st : σ),
      (flds.map Prod.fst).Nodup →
      (InputRun (fun _ => rootGetter flds st) Outcome.accepted).vals =
        flds.map (fun p => (p.1, p.2 st)) ∧
      (InputRun (fun _ => rootGetter flds st) Outcome.accepted).getterCalls = 1 ∧
      (InputRun (fun _ => rootGetter flds st) Outcome.rejected).vals = [] ∧
      (InputRun (fun _ => rootGetter flds st) Outcome.rejected).getterCalls = 0 := by
  intro σ flds st hnd
  refine ⟨?_, rfl, rfl, rfl⟩
  show dictUpdate [] (rootGetter flds st) = flds.map fun p => (p.1, p.2 st)
  have hkeys : (rootGetter flds st).map Prod.fst = flds.map Prod.fst := by
    rw [rootGetter, List.map_map]
    rfl
  have h := foldl_dictInsert_fresh (rootGetter flds st) (m := [])
    (by rw [List.map_nil, List.nil_append, hkeys]; exact hnd)
  rw [dictUpdate, h, List.nil_append]
  rfl

/-- C9 witness: for a two-field root record, confirmation returns both
fields' extracted values with the extractor invoked once; cancellation
returns the empty mapping with the extractor never invoked. -/
theorem input_confirm_cancel_witness :
    (InputRun (fun _ => rootGetter
      [("name", fun _ : Unit => UVal.str ""), ("age", fun _ => UVal.int 0)] ())
      Outcome.accepted).vals =
        [("name", UVal.str ""), ("age", UVal.int 0)] ∧
    (InputRun (fun _ => rootGetter
      [("name", fun _ : Unit => UVal.str ""), ("age", fun _ => UVal.int 0)] ())
      Outcome.accepted).getterCalls = 1 ∧
    (InputRun (fun _ => rootGetter
      [("name", fun _ : Unit => UVal.str ""), ("age", fun _ => UVal.int 0)] ())
      Outcome.rejected).vals = [] ∧
    (InputRun (fun _ => rootGetter
      [("name", fun _ : Unit => UVal.str ""), ("age", fun _ => UVal.int 0)] ())
      Outcome.rejected).getterCalls = 0 :=
  input_confirm_cancel
    [("name", fun _ : Unit => UVal.str ""), ("age", fun _ => UVal.int 0)] ()
    (by decide)

end PydanticInput
